import Mathlib

/-!
Verification of the TensorBoard Rust run loader (`tensorboard/data/server/run.rs`).

The file shallowly embeds the run loader: the types and functions of `run.rs`
are translated directly; collaborators that live outside the provided source
(the stage reservoir, the commit storage, the event-file reader, the wall-time
constructor and the `data_compat` metadata helpers) are modelled from the
specification, as documented on each such definition.

Machine floats appearing in events are modelled as rationals together with an
explicit "not finite" marker; wall-clock time for the commit pacing is modelled
by an explicit clock oracle mapping event counts to instants.
-/

set_option autoImplicit false

namespace TB

/-- A run name (`types::Run`): an opaque string. -/
abbrev Run := String

/-- A tag (`types::Tag`): an opaque string naming a time series. -/
abbrev Tag := String

/-- A step (`types::Step`): an `i64` sequence index. No arithmetic is performed
on steps, only comparison, so `Int` models it exactly. -/
abbrev Step := Int

/-- A validated wall time (`types::WallTime`): a finite non-negative timestamp. -/
abbrev WallTime := Rat

/-- A raw `f64` wall time as read from an event record: either a finite
rational value or a non-finite value (NaN or an infinity). -/
inductive RawTime where
  | fin (q : Rat)
  | notFinite
  deriving DecidableEq, Repr

/-- Modelled from the spec: `WallTime::new` (in `types.rs`, not part of the
provided source). "Construction fails when the value is NaN or negative"; a
wall time is "a finite non-negative real-valued timestamp". -/
def WallTime.new : RawTime → Option WallTime
  | .notFinite => none
  | .fin q => if q < 0 then none else some q

/-- Embeds `pb::summary_metadata::PluginData`: plugin name plus opaque content bytes. -/
structure PluginData where
  plugin_name : String := ""
  content : List Nat := []
  deriving DecidableEq, Repr

/-- Embeds `pb::SummaryMetadata`: carries a plugin-data message and a raw `i32`
data-class tag (proto enums travel as integers). -/
structure SummaryMetadata where
  plugin_data : Option PluginData := none
  display_name : String := ""
  summary_description : String := ""
  data_class : Int := 0
  deriving DecidableEq, Repr

/-- Embeds `pb::DataClass`: the recognised data classes. -/
inductive DataClass where
  | Unknown
  | Scalar
  | Tensor
  | BlobSequence
  deriving DecidableEq, Repr

/-- Modelled from the spec: the proto-generated `DataClass::from_i32`
(`DATA_CLASS_UNKNOWN = 0`, `SCALAR = 1`, `TENSOR = 2`, `BLOB_SEQUENCE = 3`);
any other integer is unrecognised. -/
def DataClass.from_i32 : Int → Option DataClass
  | 0 => some .Unknown
  | 1 => some .Scalar
  | 2 => some .Tensor
  | 3 => some .BlobSequence
  | _ => none

/-- The wire integer of a data class (inverse direction of `from_i32`). -/
def DataClass.toI32 : DataClass → Int
  | .Unknown => 0
  | .Scalar => 1
  | .Tensor => 2
  | .BlobSequence => 3

/-- The payload variants of a `pb::summary::value::Value` that the claims
exercise: a scalar `simple_value` or an opaque tensor. -/
inductive PbValue where
  | simpleValue (v : Rat)
  | tensorValue (bytes : List Nat)
  deriving DecidableEq, Repr

/-- Embeds `data_compat::EventValue`: the staged payload, kept close to the on-disk
form. `TaggedRunMetadata` records are staged with the `GraphDef` constructor,
exactly as in `read_event`. -/
inductive EventValue where
  | GraphDef (bytes : List Nat)
  | Summary (v : PbValue)
  deriving DecidableEq, Repr

/-- Marker for a sample lost in commit-time translation (`commit::DataLoss`). -/
inductive DataLoss where
  | mk
  deriving DecidableEq, Repr

instance {ε α : Type} [DecidableEq ε] [DecidableEq α] : DecidableEq (Except ε α) := by
  intro a b
  cases a <;> cases b <;> first
    | (apply isFalse; intro h; exact Except.noConfusion h)
    | (rename_i x y
       exact match decEq x y with
         | isTrue h => isTrue (by rw [h])
         | isFalse h => isFalse (by intro hc; cases hc; exact h rfl))

namespace plugin_names

/-- Modelled from the spec: the scalars plugin name. -/
def SCALARS : String := "scalars"

/-- Modelled from the spec: the graphs plugin name. -/
def GRAPHS : String := "graphs"

/-- Modelled from the spec: the tagged-run-metadata plugin name. -/
def GRAPH_TAGGED_RUN_METADATA : String := "graph_tagged_run_metadata"

end plugin_names

namespace GraphDefValue

/-- Modelled from the spec: the synthetic tag for run-level graphs
(`GraphDefValue::TAG_NAME`, "graph tag literal = __run_graph__"). -/
def TAG_NAME : Tag := "__run_graph__"

/-- Modelled from the spec: `GraphDefValue::initial_metadata` — canonical
graph metadata (data_class = BlobSequence, plugin = graphs). -/
def initial_metadata : SummaryMetadata :=
  { plugin_data := some { plugin_name := plugin_names.GRAPHS }
    data_class := DataClass.toI32 .BlobSequence }

end GraphDefValue

namespace TaggedRunMetadataValue

/-- Modelled from the spec: `TaggedRunMetadataValue::initial_metadata` —
canonical tagged-run-metadata metadata (data_class = BlobSequence,
plugin = graph_tagged_run_metadata). -/
def initial_metadata : SummaryMetadata :=
  { plugin_data := some { plugin_name := plugin_names.GRAPH_TAGGED_RUN_METADATA }
    data_class := DataClass.toI32 .BlobSequence }

end TaggedRunMetadataValue

/-- The data class inferred from a summary payload variant (spec: "scalar →
Scalar, … tensor → Tensor"). -/
def inferredClass : PbValue → DataClass
  | .simpleValue _ => .Scalar
  | .tensorValue _ => .Tensor

/-- The default plugin installed when an inferred class has a canonical
plugin and the value carried none. -/
def defaultPlugin : DataClass → String
  | .Scalar => plugin_names.SCALARS
  | _ => ""

/-- Modelled from the spec: `SummaryValue::initial_metadata` (in
`data_compat.rs`, not part of the provided source). "Metadata is derived from
the value's own descriptor, enriched with class-specific defaults inferred
from the payload variant": a descriptor that already declares a data class is
taken as is; otherwise the class is inferred from the variant and a canonical
plugin is installed when the descriptor named none. -/
def SummaryValue.initial_metadata (md : Option SummaryMetadata) (v : PbValue) :
    SummaryMetadata :=
  let base := md.getD {}
  if base.data_class ≠ 0 then base
  else
    let cls := inferredClass v
    { base with
        data_class := cls.toI32
        plugin_data :=
          match base.plugin_data with
          | some p => some p
          | none => some { plugin_name := defaultPlugin cls } }

/-- Modelled from the spec: the commit-time scalar extraction transform
(`EventValue::into_scalar`): a scalar summary value yields its number, any
other payload is data loss. -/
def EventValue.into_scalar : EventValue → Except DataLoss Rat
  | .Summary (.simpleValue v) => .ok v
  | _ => .error .mk

/-- Modelled from the spec: the commit-time blob-sequence extraction transform
(`EventValue::into_blob_sequence`): graph/run-metadata bytes become a
one-element blob sequence; other payloads are data loss. -/
def EventValue.into_blob_sequence : EventValue → SummaryMetadata →
    Except DataLoss (List (List Nat))
  | .GraphDef bytes, _ => .ok [bytes]
  | _, _ => .error .mk

/-- A scalar committed value (`commit::ScalarValue`). -/
abbrev ScalarValue := Rat

/-- A blob-sequence committed value (`commit::BlobSequenceValue`). -/
abbrev BlobSequenceValue := List (List Nat)

/-- Modelled from the spec: `reservoir::StageReservoir`. It records its
capacity, the retained population committed so far (in step order), and the
stage buffer of offers not yet committed (in offer order). Uniform
downsampling applies only above capacity and is probabilistic, hence not
modelled; retention below capacity is exact. -/
structure StageReservoir (V : Type) where
  capacity : Nat
  retained : List (Step × V)
  staged : List (Step × V)
  deriving DecidableEq, Repr

/-- Modelled from the spec: `StageReservoir::new`. -/
def StageReservoir.new {V : Type} (capacity : Nat) : StageReservoir V :=
  { capacity := capacity, retained := [], staged := [] }

/-- Modelled from the spec: `StageReservoir::offer` "appends to an internal
stage buffer without yet making a sampling decision". -/
def StageReservoir.offer {V : Type} (r : StageReservoir V) (s : Step) (v : V) :
    StageReservoir V :=
  { r with staged := r.staged ++ [(s, v)] }

/-- Insert one offer into the retained population kept in step order:
last write wins at an equal step. -/
def insertStep {V : Type} (s : Step) (v : V) :
    List (Step × V) → List (Step × V)
  | [] => [(s, v)]
  | (s0, v0) :: rest =>
    if s < s0 then (s, v) :: (s0, v0) :: rest
    else if s = s0 then (s, v) :: rest
    else (s0, v0) :: insertStep s v rest

/-- The retained population after draining the stage buffer: each staged
offer, in stream order, overrides any retained sample at an equal step
("across all offers ever made with the same step, at most one is retained —
last-write-wins by stream position"), and the result stays in step order. -/
def StageReservoir.commitRetained {V : Type} (r : StageReservoir V) :
    List (Step × V) :=
  r.staged.foldl (fun acc p => insertStep p.1 p.2 acc) r.retained

/-- A value staged in the reservoir (`StageValue` in `run.rs`): wall time
plus payload, kept close to the event representation. -/
structure StageValue where
  wall_time : WallTime
  payload : EventValue
  deriving DecidableEq, Repr

/-- One committed time series (`commit::TimeSeries`): pinned metadata plus the
ordered basin of (step, wall_time, value-or-data-loss) samples. -/
structure TimeSeriesC (V : Type) where
  metadata : SummaryMetadata
  basin : List (Step × WallTime × Except DataLoss V)
  deriving DecidableEq, Repr

/-- A tag store (`commit::TagStore`): mapping from tag to committed series,
modelled as an association list. -/
abbrev TagStore (V : Type) := List (Tag × TimeSeriesC V)

/-- Association-list lookup by decidable equality. -/
def alookup {α β : Type} [DecidableEq α] (k : α) : List (α × β) → Option β
  | [] => none
  | (k0, v) :: rest => if k = k0 then some v else alookup k rest

/-- The `entry(tag).or_insert_with(TimeSeries::new(metadata))` step followed by
`commit_map` writing the new basin: an absent tag is inserted with the staged
series' metadata; a present tag keeps its own metadata (it is never
overwritten) and only its basin is replaced. -/
def tagStoreCommitTo {V : Type} (t : Tag) (md : SummaryMetadata)
    (basin : List (Step × WallTime × Except DataLoss V)) :
    TagStore V → TagStore V
  | [] => [(t, { metadata := md, basin := basin })]
  | (t0, e) :: rest =>
    if t = t0 then (t0, { metadata := e.metadata, basin := basin }) :: rest
    else (t0, e) :: tagStoreCommitTo t md basin rest

/-- Modelled from the spec: the per-run commit storage (`commit::RunData`):
start time plus per-class tag stores. -/
structure RunData where
  start_time : Option WallTime := none
  scalars : TagStore ScalarValue := []
  blob_sequences : TagStore BlobSequenceValue := []
  deriving DecidableEq, Repr

/-- Embeds `StageTimeSeries` from `run.rs`: frozen data class, first-sighted
metadata, and the staging reservoir. -/
structure StageTimeSeries where
  data_class : DataClass
  metadata : SummaryMetadata
  rsv : StageReservoir StageValue
  deriving DecidableEq, Repr

/-- Embeds `StageTimeSeries::new`: decode the data class (falling back to `Unknown`
on an unrecognised integer), pick the class capacity, and build an empty
reservoir. -/
def StageTimeSeries.new (metadata : SummaryMetadata) : StageTimeSeries :=
  let data_class := (DataClass.from_i32 metadata.data_class).getD .Unknown
  let capacity : Nat :=
    match data_class with
    | .Scalar => 1000
    | .Tensor => 100
    | .BlobSequence => 10
    | _ => 0
  { data_class := data_class, metadata := metadata
    rsv := StageReservoir.new capacity }

/-- Embeds `StageTimeSeries::commit_to`: look up or create the sink entry with this
series' metadata, then drain the reservoir's stage buffer into the entry's
basin, enriching each retained sample. -/
def StageTimeSeries.commit_to {V : Type} (ts : StageTimeSeries) (tag : Tag)
    (store : TagStore V)
    (enrich : EventValue → SummaryMetadata → Except DataLoss V) :
    StageReservoir StageValue × TagStore V :=
  let retained := ts.rsv.commitRetained
  let basin := retained.map (fun p => (p.1, p.2.wall_time, enrich p.2.payload ts.metadata))
  ({ ts.rsv with retained := retained, staged := [] },
   tagStoreCommitTo tag ts.metadata basin store)

/-- The warning text emitted for a tensor-class series at commit time, naming
the tag and the plugin. -/
def tensorWarning (tag : Tag) (md : SummaryMetadata) : String :=
  "Tensor time series not yet supported (tag: " ++ tag ++ ", plugin: "
    ++ ((md.plugin_data.map PluginData.plugin_name).getD "") ++ ")"

/-- Embeds `StageTimeSeries::commit`: dispatch on the frozen data class. Scalars
commit into `run.scalars`, blob sequences into `run.blob_sequences`, tensors
warn and produce no commit, anything else is a no-op. Returns the updated
series and storage plus the warnings emitted. -/
def StageTimeSeries.commit (ts : StageTimeSeries) (tag : Tag) (run : RunData) :
    StageTimeSeries × RunData × List String :=
  match ts.data_class with
  | .Scalar =>
    let r := ts.commit_to tag run.scalars (fun ev _ => ev.into_scalar)
    ({ ts with rsv := r.1 }, { run with scalars := r.2 }, [])
  | .Tensor => (ts, run, [tensorWarning tag ts.metadata])
  | .BlobSequence =>
    let r := ts.commit_to tag run.blob_sequences EventValue.into_blob_sequence
    ({ ts with rsv := r.1 }, { run with blob_sequences := r.2 }, [])
  | .Unknown => (ts, run, [])

/-- Embeds `pb::summary::Value`: tag, optional metadata descriptor, optional payload. -/
structure SummaryPbValue where
  tag : String
  metadata : Option SummaryMetadata := none
  value : Option PbValue := none
  deriving DecidableEq, Repr

/-- The `pb::event::What` payload variants. -/
inductive What where
  | FileVersion (s : String)
  | GraphDef (bytes : List Nat)
  | TaggedRunMetadata (tag : String) (run_metadata : List Nat)
  | Summary (values : List SummaryPbValue)
  deriving DecidableEq, Repr

/-- Embeds `pb::Event`: wall time, step, and an optional payload. -/
structure Event where
  wall_time : RawTime
  step : Int
  what : Option What := none
  deriving DecidableEq, Repr

/-- The staged data of a run loader (`RunLoaderData`): earliest valid wall
time seen, and the per-tag staged series (the source's `HashMap` modelled as
an association list in first-insertion order). -/
structure RunLoaderData where
  start_time : Option WallTime := none
  time_series : List (Tag × StageTimeSeries) := []
  deriving DecidableEq, Repr

/-- The `entry(tag)` staging step of `read_event`: offer to the existing
series if the tag is present, otherwise create the series from the
first-sighted metadata (the thunk mirrors the vacant-entry closure) and offer
to it. -/
def tsOffer (t : Tag) (mk : Unit → SummaryMetadata) (s : Step) (sv : StageValue) :
    List (Tag × StageTimeSeries) → List (Tag × StageTimeSeries)
  | [] =>
    let ts := StageTimeSeries.new (mk ())
    [(t, { ts with rsv := ts.rsv.offer s sv })]
  | (t0, ts) :: rest =>
    if t = t0 then (t0, { ts with rsv := ts.rsv.offer s sv }) :: rest
    else (t0, ts) :: tsOffer t mk s sv rest

/-- The `start_time` bookkeeping statement of `read_event`: lower
`start_time` when the new valid wall time precedes it ("None counts as plus
infinity"). -/
def RunLoaderData.noteTime (d : RunLoaderData) (wall_time : WallTime) :
    RunLoaderData :=
  match d.start_time with
  | none => { d with start_time := some wall_time }
  | some start =>
    if wall_time < start then { d with start_time := some wall_time } else d

/-- The payload dispatch statement of `read_event`: stage the record by
variant — graphs under the synthetic graph tag, tagged run metadata under its
own tag with its bytes staged as a `GraphDef` payload, each summary value
with a present payload under its own tag; `FileVersion` and unrecognised
variants stage nothing. -/
def RunLoaderData.stage (d1 : RunLoaderData) (wall_time : WallTime) (stp : Step) :
    Option What → RunLoaderData
  | some (.GraphDef bytes) =>
    { d1 with
        time_series :=
          tsOffer GraphDefValue.TAG_NAME (fun _ => GraphDefValue.initial_metadata)
            stp { wall_time := wall_time, payload := .GraphDef bytes }
            d1.time_series }
  | some (.TaggedRunMetadata tag bytes) =>
    { d1 with
        time_series :=
          tsOffer tag (fun _ => TaggedRunMetadataValue.initial_metadata)
            stp { wall_time := wall_time, payload := .GraphDef bytes }
            d1.time_series }
  | some (.Summary values) =>
    { d1 with
        time_series :=
          values.foldl
            (fun m v =>
              match v.value with
              | none => m
              | some pv =>
                tsOffer v.tag (fun _ => SummaryValue.initial_metadata v.metadata pv)
                  stp { wall_time := wall_time, payload := .Summary pv } m)
            d1.time_series }
  | _ => d1

/-- Embeds `RunLoaderData::read_event`: drop the record if its wall time is
invalid; otherwise run the `start_time` bookkeeping and then the payload
dispatch, exactly the two statements of the source. -/
def RunLoaderData.read_event (d : RunLoaderData) (e : Event) : RunLoaderData :=
  match WallTime.new e.wall_time with
  | none => d
  | some wall_time => (d.noteTime wall_time).stage wall_time e.step e.what

/-- The per-series loop of `commit_all`: commit each staged series in order,
threading the run storage and collecting warnings. -/
def commitSeriesList : List (Tag × StageTimeSeries) → RunData →
    List (Tag × StageTimeSeries) × RunData × List String
  | [], run => ([], run, [])
  | (t, ts) :: rest, run =>
    let c := ts.commit t run
    let r := commitSeriesList rest c.2.1
    ((t, c.1) :: r.1, r.2.1, c.2.2 ++ r.2.2)

/-- Embeds `RunLoaderData::commit_all`: overwrite the storage's start time with the
loader's, then commit every staged series. -/
def RunLoaderData.commit_all (d : RunLoaderData) (run : RunData) :
    RunLoaderData × RunData × List String :=
  let run1 := { run with start_time := d.start_time }
  let r := commitSeriesList d.time_series run1
  ({ d with time_series := r.1 }, r.2.1, r.2.2)

/-- A file identifier (`logdir::EventFileBuf`): an opaque totally ordered
token; ordering is lexicographic. -/
abbrev FileId := String

/-- One read from the event-file reader: a decoded event, the benign
truncated-tail condition, or any other (terminal) decode/IO error. -/
inductive ReadResult where
  | ok (e : Event)
  | truncated
  | fail
  deriving DecidableEq, Repr

/-- Modelled from the spec: `event_file::EventFileReader` (not part of the
provided source), as its observable behaviour: a checksum flag and the stream
of results its successive `read_event` calls return. -/
structure EventFileReader where
  checksum : Bool
  events : List ReadResult
  deriving DecidableEq, Repr

/-- Embeds `EventFile` from `run.rs`: a file that may still have data, or a dead one. -/
inductive EventFile where
  | Active (reader : EventFileReader)
  | Dead
  deriving DecidableEq, Repr

/-- Modelled from the spec: the logdir capability `open(file_id) → stream |
error`, as a function returning the stream a fresh reader would yield, or
`none` on open failure. -/
abbrev Logdir := FileId → Option (List ReadResult)

/-- The result of the per-file read loop of `reload_files`: the events
handled, whether the file died (first non-truncated error), and the remaining
stream position for the next cycle. -/
structure ConsumeResult where
  events : List Event
  dead : Bool
  rest : List ReadResult
  deriving DecidableEq, Repr

/-- The per-file read loop of `reload_files`: consume decoded events in
stream order, stopping at the first truncated-tail result (file stays where
it is, to be resumed next cycle) or at the first other error (file dies). An
exhausted stream behaves like a truncated tail. -/
def consumeFile : List ReadResult → ConsumeResult
  | [] => { events := [], dead := false, rest := [] }
  | .truncated :: rest => { events := [], dead := false, rest := .truncated :: rest }
  | .fail :: rest => { events := [], dead := true, rest := rest }
  | .ok e :: rest =>
    let c := consumeFile rest
    { c with events := e :: c.events }

/-- Embeds `RunLoader` from `run.rs`: the run name, the key-ordered file map
(`BTreeMap` modelled as a key-sorted association list), the checksum flag and
the staged data. -/
structure RunLoader where
  run : Run
  files : List (FileId × EventFile)
  checksum : Bool
  data : RunLoaderData

/-- Embeds `RunLoader::new`: empty file map, checksums enabled, empty data. -/
def RunLoader.new (run : Run) : RunLoader :=
  { run := run, files := [], checksum := true, data := {} }

/-- Embeds `RunLoader::checksum`: sets the checksum flag for subsequently opened
files. -/
def RunLoader.set_checksum (l : RunLoader) (yes : Bool) : RunLoader :=
  { l with checksum := yes }

/-- Decides the lexicographic `String` order on the underlying character
lists. `String.lt` is by definition the list order, so this is the same
relation as `<`; unlike the default byte-iterator decision procedure, this
one evaluates inside the kernel. -/
instance (priority := 2000) decStrLt (a b : String) : Decidable (a < b) :=
  decidable_of_iff (a.toList < b.toList) String.lt_iff_toList_lt.symm

/-- Key-ordered insertion into the file map (`BTreeMap` insert). -/
def btreeInsert (k : FileId) (v : EventFile) :
    List (FileId × EventFile) → List (FileId × EventFile)
  | [] => [(k, v)]
  | (k0, v0) :: rest =>
    if k < k0 then (k, v) :: (k0, v0) :: rest
    else if k = k0 then (k, v) :: rest
    else (k0, v0) :: btreeInsert k v rest

/-- Opening one new file in `update_file_set`: on success a fresh reader
carrying the loader's current checksum flag, on failure a dead entry. -/
def openFile (checksum : Bool) (logdir : Logdir) (name : FileId) : EventFile :=
  match logdir name with
  | some evs => .Active { checksum := checksum, events := evs }
  | none => .Dead

/-- One step of the second loop of `update_file_set`: an occupied key is left
untouched; a vacant key is inserted with a newly opened entry. -/
def openNew (checksum : Bool) (logdir : Logdir)
    (fs : List (FileId × EventFile)) (name : FileId) : List (FileId × EventFile) :=
  match alookup name fs with
  | some _ => fs
  | none => btreeInsert name (openFile checksum logdir name) fs

/-- Embeds `RunLoader::update_file_set`: first mark every known file missing from
`filenames` as dead (the value of every such entry is overwritten in place);
then, for each name in order, insert a newly opened entry when the key is
vacant and leave occupied keys untouched. -/
def RunLoader.update_file_set (l : RunLoader) (logdir : Logdir)
    (filenames : List FileId) : RunLoader :=
  let files1 := l.files.map
    (fun p => (p.1, if filenames.contains p.1 then p.2 else EventFile.Dead))
  { l with files := filenames.foldl (openNew l.checksum logdir) files1 }

/-- Embeds `RunLoader::reload_files`: walk the file map in key order; skip dead
entries; for each active file run the read loop, hand each event to the
handler in order, and replace the entry by its advanced reader (or a dead
entry after a terminal error). The source interleaves reading and handling;
since the reader's results do not depend on the handler, batching each file's
events before folding the handler is the same function. -/
def reload_files {St : Type} (handle : St → Event → St) :
    List (FileId × EventFile) → St → List (FileId × EventFile) × St
  | [], st => ([], st)
  | (k, .Dead) :: rest, st =>
    let r := reload_files handle rest st
    ((k, .Dead) :: r.1, r.2)
  | (k, .Active reader) :: rest, st =>
    let c := consumeFile reader.events
    let st1 := c.events.foldl handle st
    let ef := if c.dead then EventFile.Dead
              else .Active { reader with events := c.rest }
    let r := reload_files handle rest st1
    ((k, ef) :: r.1, r.2)

/-- Embeds `COMMIT_INTERVAL`: minimum wall-clock seconds between mid-cycle commits. -/
def COMMIT_INTERVAL : Rat := 5

/-- The running state of one `reload` cycle: events handled so far, the
instant of the last commit, the staged data, the run storage, and how many
mid-cycle publications have happened. -/
structure ReloadState where
  n : Nat
  last_commit : Rat
  data : RunLoaderData
  run_data : RunData
  commits : Nat

/-- The event handler closure inside `reload`: stage the event, and every
100th event compare the clock against `COMMIT_INTERVAL` since the last
publication, committing mid-cycle when it has elapsed. The wall clock is
modelled by the oracle `clock`, giving the instant at which the n-th event
has been handled (`clock 0` is the cycle start). -/
def handleEvent (clock : Nat → Rat) (st : ReloadState) (e : Event) : ReloadState :=
  let data := st.data.read_event e
  let n := st.n + 1
  if n % 100 = 0 ∧ COMMIT_INTERVAL ≤ clock n - st.last_commit then
    let c := data.commit_all st.run_data
    { n := n, last_commit := clock n, data := c.1, run_data := c.2.1
      commits := st.commits + 1 }
  else
    { st with n := n, data := data }

/-- Embeds `RunLoader::reload`: reconcile the file set, read all active files
through the pacing handler, then publish unconditionally once more at cycle
end. Returns the loader, the final run storage, and the total number of
publications made during the call. -/
def RunLoader.reload (l : RunLoader) (logdir : Logdir) (filenames : List FileId)
    (run_data : RunData) (clock : Nat → Rat) : RunLoader × RunData × Nat :=
  let l1 := l.update_file_set logdir filenames
  let st0 : ReloadState :=
    { n := 0, last_commit := clock 0, data := l1.data, run_data := run_data
      commits := 0 }
  let r := reload_files (handleEvent clock) l1.files st0
  let st := r.2
  let c := st.data.commit_all st.run_data
  ({ l1 with files := r.1, data := c.1 }, c.2.1, st.commits + 1)

/-- The inputs of one `reload` call, for reasoning about call sequences. -/
structure ReloadInput where
  logdir : Logdir
  filenames : List FileId
  run_data : RunData
  clock : Nat → Rat

/-- A sequence of `reload` calls applied in order. -/
def reloadMany (l : RunLoader) : List ReloadInput → RunLoader
  | [] => l
  | i :: rest => reloadMany (l.reload i.logdir i.filenames i.run_data i.clock).1 rest

/-! ## Concrete scenario for the two-file preemption claim -/

/-- One scalar summary event for the tag `accuracy`. -/
def scalarEvent (s : Int) (wt v : Rat) : Event :=
  { wall_time := .fin wt, step := s
    what := some (.Summary [{ tag := "accuracy", value := some (.simpleValue v) }]) }

/-- File 1 of the preemption scenario: `FileVersion` at wall time 1234, then
`accuracy` at steps 0..3 (wall times 1235..1238, values 0.25, 0.50, 0.75,
1.00). -/
def c1File1 : List ReadResult :=
  [.ok { wall_time := .fin 1234, step := 0, what := some (.FileVersion "brain.Event:2") },
   .ok (scalarEvent 0 1235 (mkRat 1 4)), .ok (scalarEvent 1 1236 (mkRat 1 2)),
   .ok (scalarEvent 2 1237 (mkRat 3 4)), .ok (scalarEvent 3 1238 1)]

/-- File 2 of the preemption scenario: `FileVersion` at wall time 2345, then
`accuracy` at steps 2..4 (wall times 2346..2348, values 0.70, 0.85, 0.90). -/
def c1File2 : List ReadResult :=
  [.ok { wall_time := .fin 2345, step := 0, what := some (.FileVersion "brain.Event:2") },
   .ok (scalarEvent 2 2346 (mkRat 7 10)), .ok (scalarEvent 3 2347 (mkRat 17 20)),
   .ok (scalarEvent 4 2348 (mkRat 9 10))]

/-- The logdir of the preemption scenario, with the two lexicographically
ordered event files. -/
def c1Logdir : Logdir := fun name =>
  if name = "tfevents.123" then some c1File1
  else if name = "tfevents.456" then some c1File2 else none

/-- One `reload` of the preemption scenario from a fresh loader into empty
run storage. -/
def c1Result : RunLoader × RunData × Nat :=
  (RunLoader.new "train").reload c1Logdir ["tfevents.123", "tfevents.456"] {}
    (fun _ => 0)

/-! ## Auxiliary definitions used to state the claims -/

/-- The loader data obtained by reading a list of events into a fresh
`RunLoaderData`. -/
def loadFresh (es : List Event) : RunLoaderData :=
  es.foldl RunLoaderData.read_event {}

/-- The valid wall times of a list of events, in order of observation. -/
def validWallTimes (es : List Event) : List Rat :=
  es.filterMap (fun e => WallTime.new e.wall_time)

/-- Running minimum of a list threaded through an optional accumulator
("None counts as plus infinity"). -/
def foldMin (o : Option Rat) (l : List Rat) : Option Rat :=
  l.foldl (fun acc w => some (match acc with | none => w | some a => min a w)) o

/-- What one load cycle does to a single file-map entry: dead entries stay
dead; an active reader advances past its consumed records, dying on a
terminal error. -/
def advanceFile : EventFile → EventFile
  | .Dead => .Dead
  | .Active r =>
    let c := consumeFile r.events
    if c.dead then .Dead else .Active { r with events := c.rest }

/-- The events a file-map entry contributes during one cycle. -/
def fileEvents : EventFile → List Event
  | .Dead => []
  | .Active r => (consumeFile r.events).events

/-- The full trace of (file, event) pairs a cycle hands to the event handler,
in handling order. -/
def readTrace (files : List (FileId × EventFile)) : List (FileId × Event) :=
  files.flatMap (fun p => (fileEvents p.2).map (fun e => (p.1, e)))

/-- The maximal decoded leading run of a result stream. -/
def okEvents : List ReadResult → List Event
  | .ok e :: rest => e :: okEvents rest
  | _ => []

/-- Whether the first non-decoded result of a stream is a terminal error
(rather than a truncated tail or the end of the stream). -/
def stopsDead : List ReadResult → Bool
  | .ok _ :: rest => stopsDead rest
  | .fail :: _ => true
  | _ => false

/-- The stream position remaining after one cycle's read loop. -/
def restAfter : List ReadResult → List ReadResult
  | .ok _ :: rest => restAfter rest
  | .truncated :: rest => .truncated :: rest
  | .fail :: rest => rest
  | [] => []

/-- The scalar enrichment applied at commit time (metadata is ignored for
scalars, as in `commit`). -/
def scalarItem (p : Step × StageValue) : Step × WallTime × Except DataLoss ScalarValue :=
  (p.1, p.2.wall_time, p.2.payload.into_scalar)

/-- The blob-sequence enrichment applied at commit time. -/
def blobItem (md : SummaryMetadata) (p : Step × StageValue) :
    Step × WallTime × Except DataLoss BlobSequenceValue :=
  (p.1, p.2.wall_time, p.2.payload.into_blob_sequence md)

/-- A staged series is stable at a tag when a commit of it would change
nothing: its stage buffer is drained and (for the storing classes) the sink
already holds an entry whose basin equals the enriched retained population.
Tensor and unknown classes never write, so they are always stable. -/
def stableAfter (t : Tag) (ts : StageTimeSeries) (run : RunData) : Prop :=
  match ts.data_class with
  | .Scalar =>
    ts.rsv.staged = [] ∧
      ∃ e, alookup t run.scalars = some e ∧ e.basin = ts.rsv.retained.map scalarItem
  | .BlobSequence =>
    ts.rsv.staged = [] ∧
      ∃ e, alookup t run.blob_sequences = some e ∧
        e.basin = ts.rsv.retained.map (blobItem ts.metadata)
  | _ => True

/-! ## Theorems -/

/-- C1: two-file preemption. With file 1 = FileVersion at wall time 1234 plus
scalar `accuracy` at steps 0..3 (wall times 1235..1238, values 0.25, 0.50,
0.75, 1.00) and the lexicographically later file 2 = FileVersion at 2345 plus
`accuracy` at steps 2..4 (wall times 2346..2348, values 0.70, 0.85, 0.90),
one `reload` yields `start_time = 1234` and `scalars["accuracy"]` exactly
`[(0,1235,0.25), (1,1236,0.50), (2,2346,0.70), (3,2347,0.85), (4,2348,0.90)]`
— the later file's record wins at each shared step — with metadata
plugin_name "scalars" and data_class Scalar. -/
theorem two_file_preemption :
    c1Result.1.data.start_time = some 1234 ∧
    c1Result.2.1.start_time = some 1234 ∧
    c1Result.2.1.scalars =
      [("accuracy",
        { metadata := { plugin_data := some { plugin_name := plugin_names.SCALARS }
                        data_class := DataClass.toI32 .Scalar }
          basin := [(0, 1235, .ok (mkRat 1 4)), (1, 1236, .ok (mkRat 1 2)),
                    (2, 2346, .ok (mkRat 7 10)), (3, 2347, .ok (mkRat 17 20)),
                    (4, 2348, .ok (mkRat 9 10))] })] ∧
    (alookup "accuracy" c1Result.1.data.time_series).map StageTimeSeries.data_class
      = some .Scalar := by
  decide

/-- C8: tensor drop at commit. A staged series whose frozen data class is
Tensor commits to nothing: the run storage is returned unchanged (no entry,
no samples in either `scalars` or `blob_sequences`), the series itself is
untouched (so the same holds at every later commit, however many samples are
staged), and exactly one warning naming the tag and the plugin is emitted. -/
theorem tensor_drop_at_commit (ts : StageTimeSeries) (tag : Tag) (run : RunData)
    (h : ts.data_class = .Tensor) :
    ts.commit tag run = (ts, run, [tensorWarning tag ts.metadata]) := by
  simp [StageTimeSeries.commit, h]

/-- Witness for C8 at a concrete tensor series (metadata data_class wire
value 2 decodes to Tensor). -/
theorem tensor_drop_at_commit_witness :
    (StageTimeSeries.new { data_class := 2 }).data_class = .Tensor ∧
    (StageTimeSeries.new { data_class := 2 }).commit "t" {}
      = (StageTimeSeries.new { data_class := 2 }, {},
         [tensorWarning "t" { data_class := 2 }]) :=
  ⟨by decide,
   tensor_drop_at_commit (StageTimeSeries.new { data_class := 2 }) "t" {} (by decide)⟩

/-- C10: unrecognised data-class fallback. When the metadata's data-class
integer decodes to no recognised `DataClass`, the created staged series has
class `Unknown` and reservoir capacity 0, and committing any series of class
`Unknown` is a no-op: the run storage is unchanged (no entry is ever created
for the tag in `scalars` or `blob_sequences`) and no warning is emitted. -/
theorem unknown_class_fallback (md : SummaryMetadata) (tag : Tag) (run : RunData)
    (h : DataClass.from_i32 md.data_class = none) :
    (StageTimeSeries.new md).data_class = .Unknown ∧
    (StageTimeSeries.new md).rsv.capacity = 0 ∧
    (∀ ts : StageTimeSeries, ts.data_class = .Unknown →
      ts.commit tag run = (ts, run, [])) := by
  refine ⟨?_, ?_, ?_⟩
  · simp [StageTimeSeries.new, h]
  · simp [StageTimeSeries.new, h, StageReservoir.new]
  · intro ts hts
    simp [StageTimeSeries.commit, hts]

/-- Witness for C10 at the unrecognised wire value 7. -/
theorem unknown_class_fallback_witness :
    (StageTimeSeries.new { data_class := 7 }).data_class = .Unknown ∧
    (StageTimeSeries.new { data_class := 7 }).rsv.capacity = 0 ∧
    (∀ ts : StageTimeSeries, ts.data_class = .Unknown →
      ts.commit "t" {} = (ts, {}, [])) :=
  unknown_class_fallback { data_class := 7 } "t" {} (by decide)

/-- C7: commit publication schedule. `COMMIT_INTERVAL` is 5 seconds; every
`reload` publishes at least once — the cycle-end publication is unconditional,
also when `filenames` is empty or no events were read — and the in-cycle
handler publishes exactly when the event count reaches a multiple of 100 (the
clock is consulted only every 100 events, so nothing is published between
multiples regardless of elapsed time) and at least `COMMIT_INTERVAL` of
wall-clock time has passed since the previous publication, which then becomes
the new reference instant. -/
theorem commit_publication_schedule (l : RunLoader) (logdir : Logdir)
    (filenames : List FileId) (run : RunData) (clock : Nat → Rat)
    (st : ReloadState) (e : Event) :
    COMMIT_INTERVAL = 5 ∧
    1 ≤ (l.reload logdir filenames run clock).2.2 ∧
    ((handleEvent clock st e).commits = st.commits + 1 ↔
      ((st.n + 1) % 100 = 0 ∧ COMMIT_INTERVAL ≤ clock (st.n + 1) - st.last_commit)) ∧
    (¬ ((st.n + 1) % 100 = 0 ∧ COMMIT_INTERVAL ≤ clock (st.n + 1) - st.last_commit) →
      (handleEvent clock st e).commits = st.commits ∧
      (handleEvent clock st e).last_commit = st.last_commit ∧
      (handleEvent clock st e).run_data = st.run_data) ∧
    (((st.n + 1) % 100 = 0 ∧ COMMIT_INTERVAL ≤ clock (st.n + 1) - st.last_commit) →
      (handleEvent clock st e).commits = st.commits + 1 ∧
      (handleEvent clock st e).last_commit = clock (st.n + 1) ∧
      (handleEvent clock st e).run_data =
        ((st.data.read_event e).commit_all st.run_data).2.1) := by
  refine ⟨rfl, Nat.le_add_left 1 _, ?_, ?_, ?_⟩
  · simp only [handleEvent]
    split
    next h => simp [h]
    next h => simp [h]
  · intro h
    simp only [handleEvent]
    rw [if_neg h]
    exact ⟨rfl, rfl, rfl⟩
  · intro h
    simp only [handleEvent]
    rw [if_pos h]
    exact ⟨rfl, rfl, rfl⟩

/-- Witness for C7: an empty reload still publishes once, and at event 100
with five elapsed seconds the handler publishes. -/
theorem commit_publication_schedule_witness :
    1 ≤ ((RunLoader.new "r").reload (fun _ => none) [] {} (fun _ => 0)).2.2 ∧
    (handleEvent (fun _ => 5)
        { n := 99, last_commit := 0, data := {}, run_data := {}, commits := 0 }
        { wall_time := .notFinite, step := 0 }).commits = 0 + 1 :=
  ⟨(commit_publication_schedule (RunLoader.new "r") (fun _ => none) [] {}
      (fun _ => 0) { n := 0, last_commit := 0, data := {}, run_data := {}, commits := 0 }
      { wall_time := .notFinite, step := 0 }).2.1,
   ((commit_publication_schedule (RunLoader.new "r") (fun _ => none) [] {}
      (fun _ => 5) { n := 99, last_commit := 0, data := {}, run_data := {}, commits := 0 }
      { wall_time := .notFinite, step := 0 }).2.2.1).mpr
     ⟨by norm_num, by norm_num [COMMIT_INTERVAL]⟩⟩

/-- The payload dispatch never touches `start_time`. -/
theorem stage_start_time (d : RunLoaderData) (w : WallTime) (stp : Step)
    (what : Option What) : (d.stage w stp what).start_time = d.start_time := by
  rcases what with _ | (_ | _ | _ | _) <;> rfl

/-- The `start_time` bookkeeping computes a running minimum. -/
theorem noteTime_start_time (d : RunLoaderData) (w : WallTime) :
    (d.noteTime w).start_time =
      some (match d.start_time with | none => w | some s => min s w) := by
  rcases d with ⟨st0, ts0⟩
  cases st0 with
  | none => rfl
  | some s =>
    simp only [RunLoaderData.noteTime]
    by_cases hlt : w < s
    · rw [if_pos hlt]
      simp [min_eq_right hlt.le]
    · rw [if_neg hlt]
      simp [min_eq_left (not_lt.mp hlt)]

/-- One `read_event` step either keeps `start_time` (invalid wall time) or
takes the minimum with the new valid wall time. -/
theorem read_event_start_time (d : RunLoaderData) (e : Event) :
    (d.read_event e).start_time =
      match WallTime.new e.wall_time with
      | none => d.start_time
      | some w => some (match d.start_time with | none => w | some s => min s w) := by
  unfold RunLoaderData.read_event
  cases WallTime.new e.wall_time with
  | none => rfl
  | some w => rw [stage_start_time, noteTime_start_time]

/-- Unfolding `foldMin` one element at a time. -/
theorem foldMin_cons (o : Option Rat) (w : Rat) (l : List Rat) :
    foldMin o (w :: l) =
      foldMin (some (match o with | none => w | some a => min a w)) l := rfl

/-- A `foldMin` started from a value returns the minimum of the value and the
list: a witness below the seed that belongs to the seed-or-list and bounds
every list element. -/
theorem foldMin_some_spec (l : List Rat) : ∀ x : Rat,
    ∃ w, foldMin (some x) l = some w ∧ w ≤ x ∧ (w = x ∨ w ∈ l) ∧
      ∀ u ∈ l, w ≤ u := by
  induction l with
  | nil =>
    intro x
    exact ⟨x, rfl, le_refl x, Or.inl rfl, by simp⟩
  | cons u l ih =>
    intro x
    obtain ⟨w, hw, hle, hmem, hall⟩ := ih (min x u)
    refine ⟨w, by rw [foldMin_cons]; exact hw, hle.trans (min_le_left x u), ?_, ?_⟩
    · rcases hmem with h | h
      · rcases le_total x u with hxu | hux
        · exact Or.inl (by rw [h, min_eq_left hxu])
        · exact Or.inr (List.mem_cons.mpr (Or.inl (by rw [h, min_eq_right hux])))
      · exact Or.inr (List.mem_cons.mpr (Or.inr h))
    · intro v hv
      rcases List.mem_cons.mp hv with rfl | hv
      · exact hle.trans (min_le_right x v)
      · exact hall v hv

/-- A `foldMin` from the empty seed is `none` exactly on the empty list. -/
theorem foldMin_none_eq_none_iff (l : List Rat) : foldMin none l = none ↔ l = [] := by
  cases l with
  | nil => simp [foldMin]
  | cons u l =>
    rw [foldMin_cons]
    obtain ⟨w, hw, _⟩ := foldMin_some_spec l u
    simp [hw]

/-- Folding `read_event` over events tracks the running minimum of the valid
wall times. -/
theorem foldl_read_event_start_time (es : List Event) : ∀ d : RunLoaderData,
    (es.foldl RunLoaderData.read_event d).start_time =
      foldMin d.start_time (validWallTimes es) := by
  induction es with
  | nil => intro d; rfl
  | cons e es ih =>
    intro d
    rw [List.foldl_cons, ih]
    unfold validWallTimes
    rw [List.filterMap_cons]
    cases hw : WallTime.new e.wall_time with
    | none =>
      have h := read_event_start_time d e
      rw [hw] at h
      rw [h]
    | some w =>
      have h := read_event_start_time d e
      rw [hw] at h
      simp only at h
      rw [foldMin_cons, h]
      rfl

/-- C2: start-time invariant. Over any sequence of `read_event` calls from a
fresh loader, `start_time` is `none` exactly when no event with a valid
(finite, non-negative) wall time has been observed; when set it is a valid
wall time already observed that bounds every valid wall time observed so far
(the minimum, which can therefore decrease as earlier wall times arrive
later); and a record with an invalid wall time is dropped, leaving the whole
loader state — `start_time` included — unchanged. -/
theorem start_time_invariant (es : List Event) :
    ((loadFresh es).start_time = none ↔ validWallTimes es = []) ∧
    (∀ w, (loadFresh es).start_time = some w →
      w ∈ validWallTimes es ∧ ∀ u ∈ validWallTimes es, w ≤ u) ∧
    (∀ (d : RunLoaderData) (e : Event), WallTime.new e.wall_time = none →
      d.read_event e = d) := by
  have hfold : (loadFresh es).start_time = foldMin none (validWallTimes es) :=
    foldl_read_event_start_time es {}
  refine ⟨?_, ?_, ?_⟩
  · rw [hfold]
    exact foldMin_none_eq_none_iff _
  · intro w hw
    rw [hfold] at hw
    cases hl : validWallTimes es with
    | nil => rw [hl] at hw; exact absurd hw (by simp [foldMin])
    | cons u l =>
      rw [hl, foldMin_cons] at hw
      simp only at hw
      obtain ⟨w2, hw2, hle, hmem, hall⟩ := foldMin_some_spec l u
      rw [hw2] at hw
      cases hw
      constructor
      · rcases hmem with rfl | h
        · exact List.mem_cons_self _ _
        · exact List.mem_cons_of_mem _ h
      · intro v hv
        rcases List.mem_cons.mp hv with rfl | hv
        · exact hle
        · exact hall v hv
  · intro d e h
    unfold RunLoaderData.read_event
    rw [h]

/-- Witness for C2 on a concrete stream: a later event carries the earlier
wall time 1234, which becomes the minimum; the invalid-wall-time event is
dropped. -/
theorem start_time_invariant_witness :
    (loadFresh [{ wall_time := .fin 1235, step := 0 },
                { wall_time := .notFinite, step := 1 },
                { wall_time := .fin 1234, step := 2 }]).start_time = some 1234 ∧
    (1234 : Rat) ∈ validWallTimes
        [{ wall_time := .fin 1235, step := 0 },
         { wall_time := .notFinite, step := 1 },
         { wall_time := .fin 1234, step := 2 }] ∧
    ∀ u ∈ validWallTimes
        [{ wall_time := .fin 1235, step := 0 },
         { wall_time := .notFinite, step := 1 },
         { wall_time := .fin 1234, step := 2 }], (1234 : Rat) ≤ u := by
  refine ⟨by decide, ?_⟩
  have h := (start_time_invariant
    [{ wall_time := .fin 1235, step := 0 },
     { wall_time := .notFinite, step := 1 },
     { wall_time := .fin 1234, step := 2 }]).2.1 1234 (by decide)
  exact h

/-- Lookup through an entry-wise value map. -/
theorem alookup_mapEntries {α β γ : Type} [DecidableEq α] (g : α → β → γ)
    (k : α) : ∀ fs : List (α × β),
    alookup k (fs.map (fun p => (p.1, g p.1 p.2))) = (alookup k fs).map (g k) := by
  intro fs
  induction fs with
  | nil => rfl
  | cons p rest ih =>
    rcases p with ⟨k0, v0⟩
    simp only [List.map_cons, alookup]
    by_cases h : k = k0
    · subst h
      rw [if_pos rfl, if_pos rfl]
      rfl
    · rw [if_neg h, if_neg h]
      exact ih

/-- Looking up the just-inserted key finds the inserted value. -/
theorem alookup_btreeInsert_self (k : FileId) (v : EventFile) :
    ∀ fs, alookup k (btreeInsert k v fs) = some v := by
  intro fs
  induction fs with
  | nil => simp [btreeInsert, alookup]
  | cons p rest ih =>
    rcases p with ⟨k0, v0⟩
    simp only [btreeInsert]
    by_cases hlt : k < k0
    · rw [if_pos hlt]
      simp [alookup]
    · rw [if_neg hlt]
      by_cases heq : k = k0
      · rw [if_pos heq]
        simp [alookup, heq]
      · rw [if_neg heq]
        simp [alookup, heq, ih]

/-- Inserting a different key does not change a lookup. -/
theorem alookup_btreeInsert_ne (j k : FileId) (v : EventFile) (hne : j ≠ k) :
    ∀ fs, alookup j (btreeInsert k v fs) = alookup j fs := by
  intro fs
  induction fs with
  | nil => simp [btreeInsert, alookup, hne]
  | cons p rest ih =>
    rcases p with ⟨k0, v0⟩
    simp only [btreeInsert]
    by_cases hlt : k < k0
    · rw [if_pos hlt]
      simp [alookup, hne]
    · rw [if_neg hlt]
      by_cases heq : k = k0
      · rw [if_pos heq]
        subst heq
        simp [alookup, hne]
      · rw [if_neg heq]
        by_cases hj : j = k0
        · simp [alookup, hj]
        · simp [alookup, hj, ih]

/-- The opening loop never disturbs an existing entry (in particular it never
reopens a known file). -/
theorem openNew_foldl_preserves (c : Bool) (ld : Logdir) (names : List FileId) :
    ∀ fs j v, alookup j fs = some v →
      alookup j (names.foldl (openNew c ld) fs) = some v := by
  induction names with
  | nil => intro fs j v h; exact h
  | cons n rest ih =>
    intro fs j v h
    rw [List.foldl_cons]
    apply ih
    unfold openNew
    cases hn : alookup n fs with
    | some w => exact h
    | none =>
      have hne : j ≠ n := by
        intro hj
        rw [hj, hn] at h
        cases h
      rw [alookup_btreeInsert_ne _ _ _ hne]
      exact h

/-- The opening loop inserts a newly opened entry at every fresh name. -/
theorem openNew_foldl_fresh (c : Bool) (ld : Logdir) (names : List FileId) :
    ∀ fs j, names.contains j → alookup j fs = none →
      alookup j (names.foldl (openNew c ld) fs) = some (openFile c ld j) := by
  induction names with
  | nil =>
    intro fs j h
    simp [List.contains] at h
  | cons n rest ih =>
    intro fs j hc h
    rw [List.foldl_cons]
    by_cases hj : j = n
    · subst hj
      have hstep : openNew c ld fs j = btreeInsert j (openFile c ld j) fs := by
        unfold openNew
        rw [h]
      rw [hstep]
      exact openNew_foldl_preserves c ld rest _ j _ (alookup_btreeInsert_self j _ fs)
    · have hc2 : rest.contains j := by
        rw [List.contains_cons] at hc
        rcases Bool.or_eq_true_iff.mp hc with h1 | h1
        · exact absurd (by simpa using h1) hj
        · exact h1
      apply ih _ j hc2
      unfold openNew
      cases hn : alookup n fs with
      | some w => exact h
      | none =>
        rw [alookup_btreeInsert_ne _ _ _ hj]
        exact h

/-- The opening loop touches no key outside `names`. -/
theorem openNew_foldl_notMem (c : Bool) (ld : Logdir) (names : List FileId) :
    ∀ fs j, ¬ names.contains j →
      alookup j (names.foldl (openNew c ld) fs) = alookup j fs := by
  induction names with
  | nil => intro fs j _; rfl
  | cons n rest ih =>
    intro fs j hc
    have hj : j ≠ n := by
      intro hj
      exact hc (by rw [List.contains_cons, hj]; simp)
    have hc2 : ¬ rest.contains j := by
      intro h
      exact hc (by rw [List.contains_cons, h]; simp)
    rw [List.foldl_cons, ih _ j hc2]
    unfold openNew
    cases hn : alookup n fs with
    | some w => rfl
    | none => exact alookup_btreeInsert_ne _ _ _ hj fs

/-- C4: file-set reconciliation postcondition. After
`update_file_set logdir filenames`, which `reload` runs before any reading:
every key not named in `filenames` holds `Dead` (if it was absent it stays
absent); every name in `filenames` is a key of the map; and a previously
unknown name is bound to the result of opening it now — an `Active` entry
wrapping a fresh reader carrying the loader's current checksum flag on
success, and `Dead` on open failure, so it is not retried within the cycle. -/
theorem update_file_set_postcondition (l : RunLoader) (logdir : Logdir)
    (filenames : List FileId) (k : FileId) :
    (¬ filenames.contains k →
      alookup k (l.update_file_set logdir filenames).files =
        (alookup k l.files).map (fun _ => EventFile.Dead)) ∧
    (filenames.contains k →
      (alookup k (l.update_file_set logdir filenames).files).isSome) ∧
    (filenames.contains k → alookup k l.files = none →
      alookup k (l.update_file_set logdir filenames).files =
        some (openFile l.checksum logdir k)) := by
  have hphase1 : ∀ j, alookup j (l.files.map
      (fun p => (p.1, if filenames.contains p.1 then p.2 else EventFile.Dead))) =
      (alookup j l.files).map
        (fun v => if filenames.contains j then v else EventFile.Dead) :=
    fun j => alookup_mapEntries (fun a v => if filenames.contains a then v else EventFile.Dead) j l.files
  refine ⟨?_, ?_, ?_⟩
  · intro hk
    show alookup k (filenames.foldl (openNew l.checksum logdir) _) = _
    rw [openNew_foldl_notMem _ _ _ _ k hk, hphase1 k]
    cases alookup k l.files with
    | none => rfl
    | some v =>
      simp [hk]
      intro hmem
      exact absurd (List.elem_iff.mpr hmem) hk
  · intro hk
    show (alookup k (filenames.foldl (openNew l.checksum logdir) _)).isSome
    cases hv : alookup k l.files with
    | none =>
      have h0 : alookup k (l.files.map
          (fun p => (p.1, if filenames.contains p.1 then p.2 else EventFile.Dead))) = none := by
        rw [hphase1 k, hv]
        rfl
      rw [openNew_foldl_fresh _ _ _ _ k hk h0]
      rfl
    | some v =>
      have h0 := hphase1 k
      rw [hv] at h0
      rw [openNew_foldl_preserves _ _ _ _ k _ h0]
      rfl
  · intro hk hv
    show alookup k (filenames.foldl (openNew l.checksum logdir) _) = _
    have h0 : alookup k (l.files.map
        (fun p => (p.1, if filenames.contains p.1 then p.2 else EventFile.Dead))) = none := by
      rw [hphase1 k, hv]
      rfl
    exact openNew_foldl_fresh _ _ _ _ k hk h0

/-- Witness for C4: a loader knowing file "a" (dead) reconciled against
`["b"]`: "a" turns (stays) dead, "b" is opened fresh with the checksum flag. -/
theorem update_file_set_postcondition_witness :
    (alookup "a" ((⟨"r", [("a", EventFile.Dead)], true, {}⟩ : RunLoader).update_file_set
        (fun _ => some []) ["b"]).files = some EventFile.Dead) ∧
    (alookup "b" ((⟨"r", [("a", EventFile.Dead)], true, {}⟩ : RunLoader).update_file_set
        (fun _ => some []) ["b"]).files =
      some (EventFile.Active { checksum := true, events := [] })) := by
  constructor
  · have h := (update_file_set_postcondition
      ⟨"r", [("a", EventFile.Dead)], true, {}⟩ (fun _ => some []) ["b"] "a").1 (by decide)
    rw [h]
    decide
  · have h := (update_file_set_postcondition
      ⟨"r", [("a", EventFile.Dead)], true, {}⟩ (fun _ => some []) ["b"] "b").2.2
      (by decide) (by decide)
    rw [h]
    rfl

/-- A load cycle rewrites every file-map entry in place through
`advanceFile`, keeping the key set and order. -/
theorem reload_files_fst {St : Type} (handle : St → Event → St) :
    ∀ (fs : List (FileId × EventFile)) (st : St),
    (reload_files handle fs st).1 = fs.map (fun p => (p.1, advanceFile p.2)) := by
  intro fs
  induction fs with
  | nil => intro st; rfl
  | cons p rest ih =>
    intro st
    rcases p with ⟨k, ef⟩
    cases ef with
    | Dead => simp [reload_files, ih, advanceFile]
    | Active r => simp [reload_files, ih, advanceFile]

/-- A known entry survives reconciliation: kept verbatim when still listed,
turned dead when delisted — never reopened in either case. -/
theorem update_file_set_known (l : RunLoader) (logdir : Logdir)
    (filenames : List FileId) (k : FileId) (v : EventFile)
    (hv : alookup k l.files = some v) :
    alookup k (l.update_file_set logdir filenames).files =
      some (if filenames.contains k then v else .Dead) := by
  have hphase1 := alookup_mapEntries
    (fun a w => if filenames.contains a then w else EventFile.Dead) k l.files
  show alookup k (filenames.foldl (openNew l.checksum logdir) _) = _
  apply openNew_foldl_preserves
  rw [hphase1, hv]
  rfl

/-- One `reload` call never loses a key and never revives a dead entry. -/
theorem reload_preserves (l : RunLoader) (logdir : Logdir) (filenames : List FileId)
    (run : RunData) (clock : Nat → Rat) (k : FileId) :
    ((alookup k l.files).isSome →
      (alookup k (l.reload logdir filenames run clock).1.files).isSome) ∧
    (alookup k l.files = some .Dead →
      alookup k (l.reload logdir filenames run clock).1.files = some .Dead) := by
  have hfiles : (l.reload logdir filenames run clock).1.files =
      (l.update_file_set logdir filenames).files.map (fun p => (p.1, advanceFile p.2)) :=
    reload_files_fst _ _ _
  constructor
  · intro h
    obtain ⟨v, hv⟩ := Option.isSome_iff_exists.mp h
    rw [hfiles, alookup_mapEntries (fun _ w => advanceFile w) k,
      update_file_set_known l logdir filenames k v hv]
    rfl
  · intro h
    rw [hfiles, alookup_mapEntries (fun _ w => advanceFile w) k,
      update_file_set_known l logdir filenames k _ h, ite_self]
    rfl

/-- Key persistence and dead-permanence extend to any sequence of reloads. -/
theorem reloadMany_preserves (ins : List ReloadInput) : ∀ (l : RunLoader) (k : FileId),
    ((alookup k l.files).isSome → (alookup k (reloadMany l ins).files).isSome) ∧
    (alookup k l.files = some .Dead →
      alookup k (reloadMany l ins).files = some .Dead) := by
  induction ins with
  | nil => intro l k; exact ⟨id, id⟩
  | cons i rest ih =>
    intro l k
    constructor
    · intro h
      exact (ih _ k).1 ((reload_preserves l i.logdir i.filenames i.run_data i.clock k).1 h)
    · intro h
      exact (ih _ k).2 ((reload_preserves l i.logdir i.filenames i.run_data i.clock k).2 h)

/-- C3: file-map monotonicity. Over every sequence of `reload` calls, a file
identifier that is a key of the loader's file map stays a key forever; a dead
entry stays dead forever (so states only move Active to Dead, never back);
and reconciling against a `filenames` list that contains an already-known
identifier leaves that entry exactly as it was, whatever its state — the
file is never reopened. -/
theorem file_map_monotone (l : RunLoader) (ins : List ReloadInput) (k : FileId) :
    ((alookup k l.files).isSome → (alookup k (reloadMany l ins).files).isSome) ∧
    (alookup k l.files = some .Dead →
      alookup k (reloadMany l ins).files = some .Dead) ∧
    (∀ (logdir : Logdir) (filenames : List FileId) (v : EventFile),
      alookup k l.files = some v → filenames.contains k →
      alookup k (l.update_file_set logdir filenames).files = some v) := by
  refine ⟨(reloadMany_preserves ins l k).1, (reloadMany_preserves ins l k).2, ?_⟩
  intro logdir filenames v hv hc
  rw [update_file_set_known l logdir filenames k v hv, if_pos hc]

/-- Witness for C3: a dead entry survives a reload listing it again, and
reconciliation leaves the known entry untouched. -/
theorem file_map_monotone_witness :
    alookup "a" (reloadMany ⟨"r", [("a", EventFile.Dead)], true, {}⟩
      [⟨fun _ => some [], ["a"], {}, fun _ => 0⟩]).files = some EventFile.Dead ∧
    alookup "a" ((⟨"r", [("a", EventFile.Dead)], true, {}⟩ : RunLoader).update_file_set
      (fun _ => some []) ["a"]).files = some EventFile.Dead := by
  constructor
  · exact (file_map_monotone ⟨"r", [("a", EventFile.Dead)], true, {}⟩
      [⟨fun _ => some [], ["a"], {}, fun _ => 0⟩] "a").2.1 (by decide)
  · exact (file_map_monotone ⟨"r", [("a", EventFile.Dead)], true, {}⟩ [] "a").2.2
      (fun _ => some []) ["a"] EventFile.Dead (by decide) (by decide)

/-- The `start_time` bookkeeping never touches the staged series. -/
theorem noteTime_time_series (d : RunLoaderData) (w : WallTime) :
    (d.noteTime w).time_series = d.time_series := by
  rcases d with ⟨st0, ts0⟩
  cases st0 with
  | none => rfl
  | some s =>
    simp only [RunLoaderData.noteTime]
    split <;> rfl

/-- Offering to the staging map preserves the metadata and frozen class of
every existing series (an occupied entry only has its reservoir touched). -/
theorem tsOffer_lookup (t : Tag) (mk : Unit → SummaryMetadata) (s : Step)
    (sv : StageValue) :
    ∀ (m : List (Tag × StageTimeSeries)) (t0 : Tag) (ts0 : StageTimeSeries),
    alookup t0 m = some ts0 →
    ∃ ts1, alookup t0 (tsOffer t mk s sv m) = some ts1 ∧
      ts1.metadata = ts0.metadata ∧ ts1.data_class = ts0.data_class := by
  intro m
  induction m with
  | nil => intro t0 ts0 h; cases h
  | cons p rest ih =>
    intro t0 ts0 h
    rcases p with ⟨t1, ts1⟩
    simp only [tsOffer]
    by_cases ht : t = t1
    · rw [if_pos ht]
      simp only [alookup] at h ⊢
      by_cases h0 : t0 = t1
      · rw [if_pos h0] at h ⊢
        cases h
        exact ⟨_, rfl, rfl, rfl⟩
      · rw [if_neg h0] at h ⊢
        exact ⟨ts0, h, rfl, rfl⟩
    · rw [if_neg ht]
      simp only [alookup] at h ⊢
      by_cases h0 : t0 = t1
      · rw [if_pos h0] at h ⊢
        cases h
        exact ⟨_, rfl, rfl, rfl⟩
      · rw [if_neg h0] at h ⊢
        exact ih t0 ts0 h

/-- The summary-values loop of the dispatch preserves metadata and class of
every existing series. -/
theorem summaryFold_lookup (w : WallTime) (stp : Step) (values : List SummaryPbValue) :
    ∀ (m : List (Tag × StageTimeSeries)) (t0 : Tag) (ts0 : StageTimeSeries),
    alookup t0 m = some ts0 →
    ∃ ts1, alookup t0 (values.foldl
        (fun m v =>
          match v.value with
          | none => m
          | some pv =>
            tsOffer v.tag (fun _ => SummaryValue.initial_metadata v.metadata pv)
              stp { wall_time := w, payload := .Summary pv } m) m) = some ts1 ∧
      ts1.metadata = ts0.metadata ∧ ts1.data_class = ts0.data_class := by
  induction values with
  | nil => intro m t0 ts0 h; exact ⟨ts0, h, rfl, rfl⟩
  | cons v rest ih =>
    intro m t0 ts0 h
    rw [List.foldl_cons]
    cases hv : v.value with
    | none =>
      simp only [hv]
      exact ih m t0 ts0 h
    | some pv =>
      simp only [hv]
      obtain ⟨ts1, h1, hm, hc⟩ := tsOffer_lookup _ _ _ _ m t0 ts0 h
      obtain ⟨ts2, h2, hm2, hc2⟩ := ih _ t0 ts1 h1
      exact ⟨ts2, h2, hm2.trans hm, hc2.trans hc⟩

/-- The whole payload dispatch preserves metadata and class of every existing
series. -/
theorem stage_lookup (d1 : RunLoaderData) (w : WallTime) (stp : Step)
    (what : Option What) (t0 : Tag) (ts0 : StageTimeSeries)
    (h : alookup t0 d1.time_series = some ts0) :
    ∃ ts1, alookup t0 (d1.stage w stp what).time_series = some ts1 ∧
      ts1.metadata = ts0.metadata ∧ ts1.data_class = ts0.data_class := by
  rcases what with _ | what
  · exact ⟨ts0, h, rfl, rfl⟩
  rcases what with s | b | tb | values
  · exact ⟨ts0, h, rfl, rfl⟩
  · exact tsOffer_lookup _ _ _ _ d1.time_series t0 ts0 h
  · exact tsOffer_lookup _ _ _ _ d1.time_series t0 ts0 h
  · exact summaryFold_lookup w stp values d1.time_series t0 ts0 h

/-- Committing at a vacant tag creates the sink entry with the staged series'
own (first-sighted) metadata. -/
theorem tagStoreCommitTo_vacant {V : Type} (t : Tag) (md : SummaryMetadata)
    (basin : List (Step × WallTime × Except DataLoss V)) :
    ∀ st : TagStore V, alookup t st = none →
    alookup t (tagStoreCommitTo t md basin st) =
      some { metadata := md, basin := basin } := by
  intro st
  induction st with
  | nil => intro h; simp [tagStoreCommitTo, alookup]
  | cons p rest ih =>
    rcases p with ⟨t0, e⟩
    intro h
    simp only [alookup] at h
    by_cases ht : t = t0
    · rw [if_pos ht] at h
      cases h
    · rw [if_neg ht] at h
      simp only [tagStoreCommitTo]
      rw [if_neg ht]
      simp only [alookup]
      rw [if_neg ht]
      exact ih h

/-- Committing at an occupied tag keeps the sink entry's existing metadata
and only replaces the basin. -/
theorem tagStoreCommitTo_occupied {V : Type} (t : Tag) (md : SummaryMetadata)
    (basin : List (Step × WallTime × Except DataLoss V)) :
    ∀ (st : TagStore V) (e0 : TimeSeriesC V), alookup t st = some e0 →
    alookup t (tagStoreCommitTo t md basin st) =
      some { metadata := e0.metadata, basin := basin } := by
  intro st
  induction st with
  | nil => intro e0 h; cases h
  | cons p rest ih =>
    rcases p with ⟨t0, e⟩
    intro e0 h
    simp only [alookup] at h
    by_cases ht : t = t0
    · rw [if_pos ht] at h
      cases h
      simp only [tagStoreCommitTo]
      rw [if_pos ht]
      simp only [alookup]
      rw [if_pos ht]
    · rw [if_neg ht] at h
      simp only [tagStoreCommitTo]
      rw [if_neg ht]
      simp only [alookup]
      rw [if_neg ht]
      exact ih e0 h

/-- C6: metadata first-sight stickiness. A staged series' metadata and frozen
data class, captured when the tag was first created, are never changed by any
later `read_event`; and at commit time, a vacant sink entry is created with
that first-sighted metadata while an occupied sink entry keeps its own
metadata untouched — so the metadata committed for a tag is always the one
captured at first sight. -/
theorem metadata_first_sight (V : Type) (d : RunLoaderData) (e : Event) (t : Tag)
    (ts : StageTimeSeries) (store : TagStore V)
    (enrich : EventValue → SummaryMetadata → Except DataLoss V) :
    (∀ ts0, alookup t d.time_series = some ts0 →
      ∃ ts1, alookup t (d.read_event e).time_series = some ts1 ∧
        ts1.metadata = ts0.metadata ∧ ts1.data_class = ts0.data_class) ∧
    (alookup t store = none →
      ∃ basin, alookup t (ts.commit_to t store enrich).2 =
        some { metadata := ts.metadata, basin := basin }) ∧
    (∀ e0, alookup t store = some e0 →
      ∃ basin, alookup t (ts.commit_to t store enrich).2 =
        some { metadata := e0.metadata, basin := basin }) := by
  refine ⟨?_, ?_, ?_⟩
  · intro ts0 h
    unfold RunLoaderData.read_event
    cases WallTime.new e.wall_time with
    | none => exact ⟨ts0, h, rfl, rfl⟩
    | some w =>
      apply stage_lookup
      rw [noteTime_time_series]
      exact h
  · intro h
    exact ⟨_, tagStoreCommitTo_vacant t ts.metadata _ store h⟩
  · intro e0 h
    exact ⟨_, tagStoreCommitTo_occupied t ts.metadata _ store e0 h⟩

/-- Witness for C6: an existing `accuracy` series keeps its metadata through
a new offer, and a vacant sink entry is created with the staged metadata. -/
theorem metadata_first_sight_witness :
    (∃ ts1, alookup "accuracy"
        ((⟨none, [("accuracy", StageTimeSeries.new { data_class := 1 })]⟩ :
          RunLoaderData).read_event (scalarEvent 0 1 1)).time_series = some ts1 ∧
      ts1.metadata = (StageTimeSeries.new { data_class := 1 }).metadata ∧
      ts1.data_class = (StageTimeSeries.new { data_class := 1 }).data_class) ∧
    (∃ basin, alookup "accuracy"
        ((StageTimeSeries.new { data_class := 1 }).commit_to "accuracy"
          ([] : TagStore ScalarValue) (fun ev _ => ev.into_scalar)).2 =
      some { metadata := (StageTimeSeries.new { data_class := 1 }).metadata
             basin := basin }) := by
  constructor
  · exact (metadata_first_sight ScalarValue
      ⟨none, [("accuracy", StageTimeSeries.new { data_class := 1 })]⟩
      (scalarEvent 0 1 1) "accuracy" (StageTimeSeries.new { data_class := 1 })
      [] (fun ev _ => ev.into_scalar)).1
      (StageTimeSeries.new { data_class := 1 }) (by decide)
  · exact (metadata_first_sight ScalarValue ⟨none, []⟩ (scalarEvent 0 1 1) "accuracy"
      (StageTimeSeries.new { data_class := 1 }) [] (fun ev _ => ev.into_scalar)).2.1
      (by decide)

/-- The read loop consumes exactly the maximal decoded leading run of the
stream, dies exactly when the first non-decoded result is a terminal error,
and leaves the stream at the stopping position. -/
theorem consumeFile_spec (evs : List ReadResult) :
    consumeFile evs =
      { events := okEvents evs, dead := stopsDead evs, rest := restAfter evs } := by
  induction evs with
  | nil => rfl
  | cons r rest ih =>
    cases r with
    | ok e => simp [consumeFile, okEvents, stopsDead, restAfter, ih]
    | truncated => rfl
    | fail => rfl

/-- The handler state after a cycle is the fold of the handler over the
cycle's trace: files in map (key) order, records in stream order. -/
theorem reload_files_snd {St : Type} (handle : St → Event → St) :
    ∀ (fs : List (FileId × EventFile)) (st : St),
    (reload_files handle fs st).2 =
      (readTrace fs).foldl (fun s p => handle s p.2) st := by
  intro fs
  induction fs with
  | nil => intro st; rfl
  | cons p rest ih =>
    intro st
    rcases p with ⟨k, ef⟩
    cases ef with
    | Dead => simp [reload_files, readTrace, fileEvents, ih]
    | Active r =>
      simp [reload_files, readTrace, fileEvents, ih, List.foldl_map]

/-- Every file id occurring in a trace is a key of the file map. -/
theorem readTrace_keys_subset : ∀ (fs : List (FileId × EventFile)) (j : FileId),
    j ∈ (readTrace fs).map Prod.fst → j ∈ fs.map Prod.fst := by
  intro fs j h
  simp only [readTrace, List.map_flatMap] at h
  obtain ⟨p, hp, hj⟩ := List.mem_flatMap.mp h
  simp only [List.map_map, List.mem_map] at hj
  obtain ⟨e, he, hj⟩ := hj
  exact List.mem_map.mpr ⟨p, hp, hj⟩

/-- A constant-key block of the trace has ascending (equal) keys. -/
theorem pairwise_const_le (k : FileId) : ∀ l : List Event,
    ((l.map (fun e => (k, e))).map Prod.fst).Pairwise (· ≤ ·) := by
  intro l
  induction l with
  | nil => constructor
  | cons e rest ih =>
    simp only [List.map_cons, List.pairwise_cons]
    refine ⟨?_, ih⟩
    intro b hb
    simp only [List.map_map, List.mem_map] at hb
    obtain ⟨x, hx, hb⟩ := hb
    rw [← hb]
    rfl

/-- With a key-sorted file map, the whole trace is in ascending key order. -/
theorem readTrace_keys_sorted :
    ∀ fs : List (FileId × EventFile), (fs.map Prod.fst).Pairwise (· < ·) →
    ((readTrace fs).map Prod.fst).Pairwise (· ≤ ·) := by
  intro fs
  induction fs with
  | nil => intro h; constructor
  | cons p rest ih =>
    intro h
    rw [List.map_cons, List.pairwise_cons] at h
    obtain ⟨hhead, htail⟩ := h
    simp only [readTrace, List.flatMap_cons, List.map_append]
    rw [List.pairwise_append]
    refine ⟨pairwise_const_le p.1 (fileEvents p.2), ih htail, ?_⟩
    intro a ha b hb
    have ha2 : a = p.1 := by
      simp only [List.map_map, List.mem_map] at ha
      obtain ⟨x, hx, ha2⟩ := ha
      rw [← ha2]
      rfl
    have hb2 : b ∈ rest.map Prod.fst := readTrace_keys_subset rest b hb
    rw [ha2]
    exact le_of_lt (hhead b hb2)

/-- C5: per-file read termination policy. During a cycle: the handler sees
exactly the trace of the file map folded in key order — and with a key-sorted
map the trace's file ids ascend, records within each file in stream order;
reading one stream consumes its maximal decoded leading run and stops at the
first non-decoded result; an active file whose first stop is a terminal error
ends the cycle `Dead`, while a truncated tail (or end of stream) leaves it
`Active` at its stopping position for the next cycle; and a dead file
contributes no events and stays `Dead`. -/
theorem per_file_read_policy {St : Type} (handle : St → Event → St)
    (fs : List (FileId × EventFile)) (st : St) (evs : List ReadResult)
    (k : FileId) (r : EventFileReader) :
    (consumeFile evs =
      { events := okEvents evs, dead := stopsDead evs, rest := restAfter evs }) ∧
    ((reload_files handle fs st).2 =
      (readTrace fs).foldl (fun s p => handle s p.2) st) ∧
    ((fs.map Prod.fst).Pairwise (· < ·) →
      ((readTrace fs).map Prod.fst).Pairwise (· ≤ ·)) ∧
    (alookup k fs = some (.Active r) →
      alookup k (reload_files handle fs st).1 =
        some (if stopsDead r.events then .Dead
              else .Active { r with events := restAfter r.events })) ∧
    (alookup k fs = some .Dead →
      fileEvents EventFile.Dead = [] ∧
      alookup k (reload_files handle fs st).1 = some .Dead) := by
  refine ⟨consumeFile_spec evs, reload_files_snd handle fs st,
    readTrace_keys_sorted fs, ?_, ?_⟩
  · intro h
    rw [reload_files_fst handle fs st, alookup_mapEntries (fun _ w => advanceFile w) k, h]
    simp only [Option.map]
    unfold advanceFile
    simp only [consumeFile_spec]
  · intro h
    refine ⟨rfl, ?_⟩
    rw [reload_files_fst handle fs st, alookup_mapEntries (fun _ w => advanceFile w) k, h]
    rfl

/-- Witness for C5: a sorted two-file map whose active file hits a terminal
error after one record dies; the dead file stays dead. -/
theorem per_file_read_policy_witness :
    ((readTrace [("a", EventFile.Active ⟨true,
        [.ok { wall_time := .notFinite, step := 0 }, .fail]⟩),
      ("b", EventFile.Dead)]).map Prod.fst).Pairwise (· ≤ ·) ∧
    alookup "a" (reload_files (fun (s : Nat) (_ : Event) => s)
      [("a", EventFile.Active ⟨true,
        [.ok { wall_time := .notFinite, step := 0 }, .fail]⟩),
       ("b", EventFile.Dead)] 0).1 = some EventFile.Dead ∧
    alookup "b" (reload_files (fun (s : Nat) (_ : Event) => s)
      [("a", EventFile.Active ⟨true,
        [.ok { wall_time := .notFinite, step := 0 }, .fail]⟩),
       ("b", EventFile.Dead)] 0).1 = some EventFile.Dead := by
  refine ⟨?_, ?_, ?_⟩
  · exact (per_file_read_policy (fun (s : Nat) (_ : Event) => s)
      [("a", EventFile.Active ⟨true,
        [.ok { wall_time := .notFinite, step := 0 }, .fail]⟩),
       ("b", EventFile.Dead)] 0 [] "a"
      ⟨true, [.ok { wall_time := .notFinite, step := 0 }, .fail]⟩).2.2.1 (by decide)
  · have h := (per_file_read_policy (fun (s : Nat) (_ : Event) => s)
      [("a", EventFile.Active ⟨true,
        [.ok { wall_time := .notFinite, step := 0 }, .fail]⟩),
       ("b", EventFile.Dead)] 0 [] "a"
      ⟨true, [.ok { wall_time := .notFinite, step := 0 }, .fail]⟩).2.2.2.1 (by decide)
    rw [h]
    rfl
  · exact ((per_file_read_policy (fun (s : Nat) (_ : Event) => s)
      [("a", EventFile.Active ⟨true,
        [.ok { wall_time := .notFinite, step := 0 }, .fail]⟩),
       ("b", EventFile.Dead)] 0 [] "b"
      ⟨true, []⟩).2.2.2.2 (by decide)).2

/-- Committing at one tag does not disturb lookups at any other tag. -/
theorem tagStoreCommitTo_other {V : Type} (t t2 : Tag) (hne : t ≠ t2)
    (md : SummaryMetadata) (b : List (Step × WallTime × Except DataLoss V)) :
    ∀ st : TagStore V, alookup t (tagStoreCommitTo t2 md b st) = alookup t st := by
  intro st
  induction st with
  | nil =>
    simp only [tagStoreCommitTo, alookup]
    rw [if_neg hne]
  | cons p rest ih =>
    rcases p with ⟨t0, e⟩
    simp only [tagStoreCommitTo]
    by_cases h2 : t2 = t0
    · rw [if_pos h2]
      simp only [alookup]
      have hne0 : t ≠ t0 := fun h => hne (h.trans h2.symm)
      rw [if_neg hne0, if_neg hne0]
    · rw [if_neg h2]
      simp only [alookup]
      by_cases h0 : t = t0
      · rw [if_pos h0, if_pos h0]
      · rw [if_neg h0, if_neg h0]
        exact ih

/-- Re-committing a basin equal to the one already in the entry changes
nothing at all. -/
theorem tagStoreCommitTo_stable {V : Type} (t : Tag) (md : SummaryMetadata)
    (b : List (Step × WallTime × Except DataLoss V)) :
    ∀ (st : TagStore V) (e : TimeSeriesC V), alookup t st = some e → e.basin = b →
    tagStoreCommitTo t md b st = st := by
  intro st
  induction st with
  | nil => intro e h; cases h
  | cons p rest ih =>
    rcases p with ⟨t0, e0⟩
    intro e h hb
    simp only [alookup] at h
    simp only [tagStoreCommitTo]
    by_cases h0 : t = t0
    · rw [if_pos h0]
      rw [if_pos h0] at h
      cases h
      rw [← hb]
    · rw [if_neg h0]
      rw [if_neg h0] at h
      rw [ih e h hb]

/-- Committing at a tag always leaves an entry there whose basin is the
committed one. -/
theorem tagStoreCommitTo_self_basin {V : Type} (t : Tag) (md : SummaryMetadata)
    (b : List (Step × WallTime × Except DataLoss V)) (st : TagStore V) :
    ∃ e, alookup t (tagStoreCommitTo t md b st) = some e ∧ e.basin = b := by
  cases h : alookup t st with
  | none => exact ⟨_, tagStoreCommitTo_vacant t md b st h, rfl⟩
  | some e0 => exact ⟨_, tagStoreCommitTo_occupied t md b st e0 h, rfl⟩

/-- Stability only looks at the lookups at the series' own tag. -/
theorem stableAfter_congr (t : Tag) (ts : StageTimeSeries) (run run2 : RunData)
    (hs : alookup t run2.scalars = alookup t run.scalars)
    (hb : alookup t run2.blob_sequences = alookup t run.blob_sequences) :
    stableAfter t ts run → stableAfter t ts run2 := by
  intro h
  unfold stableAfter at h ⊢
  cases hdc : ts.data_class with
  | Scalar =>
    rw [hdc] at h
    obtain ⟨hst, e, he, hbas⟩ := h
    exact ⟨hst, e, hs.trans he, hbas⟩
  | BlobSequence =>
    rw [hdc] at h
    obtain ⟨hst, e, he, hbas⟩ := h
    exact ⟨hst, e, hb.trans he, hbas⟩
  | Tensor => trivial
  | Unknown => trivial

/-- A commit at a different tag preserves both lookups at this tag. -/
theorem commit_lookup_other (t t2 : Tag) (hne : t ≠ t2) (ts2 : StageTimeSeries)
    (run : RunData) :
    alookup t ((ts2.commit t2 run).2.1).scalars = alookup t run.scalars ∧
    alookup t ((ts2.commit t2 run).2.1).blob_sequences =
      alookup t run.blob_sequences := by
  cases hdc : ts2.data_class with
  | Scalar =>
    simp only [StageTimeSeries.commit, hdc]
    exact ⟨tagStoreCommitTo_other t t2 hne _ _ _, trivial⟩
  | BlobSequence =>
    simp only [StageTimeSeries.commit, hdc]
    exact ⟨trivial, tagStoreCommitTo_other t t2 hne _ _ _⟩
  | Tensor => simp only [StageTimeSeries.commit, hdc]; exact ⟨trivial, trivial⟩
  | Unknown => simp only [StageTimeSeries.commit, hdc]; exact ⟨trivial, trivial⟩

/-- A stage buffer already drained leaves the retained population as is. -/
theorem commitRetained_staged_nil (r : StageReservoir StageValue)
    (h : r.staged = []) : r.commitRetained = r.retained := by
  unfold StageReservoir.commitRetained
  rw [h]
  rfl

/-- A stable series' commit is a perfect no-op on both the series and the
storage. -/
theorem commit_stable (t : Tag) (ts : StageTimeSeries) (run : RunData)
    (h : stableAfter t ts run) :
    (ts.commit t run).1 = ts ∧ (ts.commit t run).2.1 = run := by
  unfold stableAfter at h
  cases hdc : ts.data_class with
  | Scalar =>
    rw [hdc] at h
    obtain ⟨hst, e, he, hb⟩ := h
    simp only [StageTimeSeries.commit, hdc]
    unfold StageTimeSeries.commit_to
    simp only [commitRetained_staged_nil ts.rsv hst]
    constructor
    · have hrsv : ({ ts.rsv with retained := ts.rsv.retained, staged := [] } :
          StageReservoir StageValue) = ts.rsv := by
        rw [← hst]
      rw [hrsv, ← hdc]
    · have hstore := tagStoreCommitTo_stable t ts.metadata
        (ts.rsv.retained.map
          (fun p => (p.1, p.2.wall_time, EventValue.into_scalar p.2.payload)))
        run.scalars e he (by rw [hb]; rfl)
      rw [hstore]
  | BlobSequence =>
    rw [hdc] at h
    obtain ⟨hst, e, he, hb⟩ := h
    simp only [StageTimeSeries.commit, hdc]
    unfold StageTimeSeries.commit_to
    simp only [commitRetained_staged_nil ts.rsv hst]
    constructor
    · have hrsv : ({ ts.rsv with retained := ts.rsv.retained, staged := [] } :
          StageReservoir StageValue) = ts.rsv := by
        rw [← hst]
      rw [hrsv, ← hdc]
    · have hstore := tagStoreCommitTo_stable t ts.metadata
        (ts.rsv.retained.map
          (fun p => (p.1, p.2.wall_time, EventValue.into_blob_sequence p.2.payload ts.metadata)))
        run.blob_sequences e he (by rw [hb]; rfl)
      rw [hstore]
  | Tensor => simp only [StageTimeSeries.commit, hdc]; exact ⟨trivial, trivial⟩
  | Unknown => simp only [StageTimeSeries.commit, hdc]; exact ⟨trivial, trivial⟩

/-- Any commit leaves the committed series stable against the storage it
produced. -/
theorem commit_establishes (t : Tag) (ts : StageTimeSeries) (run : RunData) :
    stableAfter t (ts.commit t run).1 (ts.commit t run).2.1 := by
  cases hdc : ts.data_class with
  | Scalar =>
    simp only [StageTimeSeries.commit, hdc]
    unfold StageTimeSeries.commit_to
    unfold stableAfter
    simp only [hdc]
    refine ⟨trivial, ?_⟩
    obtain ⟨e, he, hb⟩ := tagStoreCommitTo_self_basin t ts.metadata
      (ts.rsv.commitRetained.map
        (fun p => (p.1, p.2.wall_time, EventValue.into_scalar p.2.payload)))
      run.scalars
    exact ⟨e, he, by rw [hb]; rfl⟩
  | BlobSequence =>
    simp only [StageTimeSeries.commit, hdc]
    unfold StageTimeSeries.commit_to
    unfold stableAfter
    simp only [hdc]
    refine ⟨trivial, ?_⟩
    obtain ⟨e, he, hb⟩ := tagStoreCommitTo_self_basin t ts.metadata
      (ts.rsv.commitRetained.map
        (fun p => (p.1, p.2.wall_time, EventValue.into_blob_sequence p.2.payload ts.metadata)))
      run.blob_sequences
    exact ⟨e, he, by rw [hb]; rfl⟩
  | Tensor =>
    simp only [StageTimeSeries.commit, hdc]
    unfold stableAfter
    simp only [hdc]
  | Unknown =>
    simp only [StageTimeSeries.commit, hdc]
    unfold stableAfter
    simp only [hdc]

/-- Committing a list of series at other tags preserves stability at this
tag. -/
theorem commitSeriesList_preserves_stable (t : Tag) (ts : StageTimeSeries) :
    ∀ (ls : List (Tag × StageTimeSeries)) (run : RunData),
    (∀ p ∈ ls, p.1 ≠ t) → stableAfter t ts run →
    stableAfter t ts (commitSeriesList ls run).2.1 := by
  intro ls
  induction ls with
  | nil => intro run _ h; exact h
  | cons p rest ih =>
    rcases p with ⟨t2, ts2⟩
    intro run hne h
    have hne2 : t ≠ t2 := fun he => (hne (t2, ts2) (List.mem_cons_self _ _)) he.symm
    have hstep := commit_lookup_other t t2 hne2 ts2 run
    have h1 : stableAfter t ts ((ts2.commit t2 run).2.1) :=
      stableAfter_congr t ts run _ hstep.1 hstep.2 h
    exact ih ((ts2.commit t2 run).2.1)
      (fun q hq => hne q (List.mem_cons_of_mem _ hq)) h1

/-- Committing preserves the list of tags, in order. -/
theorem commitSeriesList_fst_tags : ∀ (ls : List (Tag × StageTimeSeries))
    (run : RunData), (commitSeriesList ls run).1.map Prod.fst = ls.map Prod.fst := by
  intro ls
  induction ls with
  | nil => intro run; rfl
  | cons p rest ih =>
    intro run
    rcases p with ⟨t, ts⟩
    simp only [commitSeriesList, List.map_cons]
    rw [ih]

/-- A single commit never changes the stored start time. -/
theorem commit_start_time (t : Tag) (ts : StageTimeSeries) (run : RunData) :
    ((ts.commit t run).2.1).start_time = run.start_time := by
  cases hdc : ts.data_class <;> simp only [StageTimeSeries.commit, hdc]

/-- Committing a list of series never changes the stored start time. -/
theorem commitSeriesList_start_time : ∀ (ls : List (Tag × StageTimeSeries))
    (run : RunData), ((commitSeriesList ls run).2.1).start_time = run.start_time := by
  intro ls
  induction ls with
  | nil => intro run; rfl
  | cons p rest ih =>
    intro run
    rcases p with ⟨t, ts⟩
    simp only [commitSeriesList]
    rw [ih, commit_start_time]

/-- Rerunning the per-series commit loop over its own output (with distinct
tags, as for a map) changes neither the series list nor the storage. -/
theorem commitSeriesList_idem : ∀ (ls : List (Tag × StageTimeSeries))
    (run : RunData), (ls.map Prod.fst).Nodup →
    (commitSeriesList (commitSeriesList ls run).1 (commitSeriesList ls run).2.1).1 =
      (commitSeriesList ls run).1 ∧
    (commitSeriesList (commitSeriesList ls run).1 (commitSeriesList ls run).2.1).2.1 =
      (commitSeriesList ls run).2.1 := by
  intro ls
  induction ls with
  | nil => intro run _; exact ⟨rfl, rfl⟩
  | cons p rest ih =>
    rcases p with ⟨t, ts⟩
    intro run hnd
    rw [List.map_cons, List.nodup_cons] at hnd
    obtain ⟨hnotin, hnd2⟩ := hnd
    have hne : ∀ q ∈ rest, q.1 ≠ t := by
      intro q hq he
      exact hnotin (List.mem_map.mpr ⟨q, hq, he⟩)
    have hstable : stableAfter t (ts.commit t run).1
        ((commitSeriesList rest (ts.commit t run).2.1).2.1) :=
      commitSeriesList_preserves_stable t (ts.commit t run).1 rest
        (ts.commit t run).2.1 hne (commit_establishes t ts run)
    have hC2 := commit_stable t (ts.commit t run).1
      ((commitSeriesList rest (ts.commit t run).2.1).2.1) hstable
    have hIH := ih (ts.commit t run).2.1 hnd2
    have houter : commitSeriesList ((t, ts) :: rest) run =
        ((t, (ts.commit t run).1) ::
            (commitSeriesList rest (ts.commit t run).2.1).1,
          (commitSeriesList rest (ts.commit t run).2.1).2.1,
          (ts.commit t run).2.2 ++
            (commitSeriesList rest (ts.commit t run).2.1).2.2) := rfl
    rw [houter]
    have hinner : commitSeriesList
        ((t, (ts.commit t run).1) :: (commitSeriesList rest (ts.commit t run).2.1).1)
        ((commitSeriesList rest (ts.commit t run).2.1).2.1) =
        ((t, ((ts.commit t run).1.commit t
            ((commitSeriesList rest (ts.commit t run).2.1).2.1)).1) ::
          (commitSeriesList (commitSeriesList rest (ts.commit t run).2.1).1
            (((ts.commit t run).1.commit t
              ((commitSeriesList rest (ts.commit t run).2.1).2.1)).2.1)).1,
         (commitSeriesList (commitSeriesList rest (ts.commit t run).2.1).1
            (((ts.commit t run).1.commit t
              ((commitSeriesList rest (ts.commit t run).2.1).2.1)).2.1)).2.1,
         ((ts.commit t run).1.commit t
            ((commitSeriesList rest (ts.commit t run).2.1).2.1)).2.2 ++
          (commitSeriesList (commitSeriesList rest (ts.commit t run).2.1).1
            (((ts.commit t run).1.commit t
              ((commitSeriesList rest (ts.commit t run).2.1).2.1)).2.1)).2.2) := rfl
    rw [hinner]
    rw [hC2.1, hC2.2]
    exact ⟨by rw [hIH.1], by rw [hIH.2]⟩

/-- Overwriting the start time of a storage with the value it already holds
is the identity. -/
theorem RunData_update_self (r : RunData) (x : Option WallTime)
    (h : x = r.start_time) : ({ r with start_time := x } : RunData) = r := by
  cases r
  cases h
  rfl

/-- C9: commit idempotence. With the staged tags distinct (as they are for
the source's per-tag hash map), running `commit_all` a second time with no
intervening `read_event` leaves both the loader's staged data and the run
storage — start time, tag entries, metadata and ordered series contents —
exactly as they were after the first call. -/
theorem commit_all_idempotent (d : RunLoaderData) (run : RunData)
    (hnd : (d.time_series.map Prod.fst).Nodup) :
    ((d.commit_all run).1.commit_all (d.commit_all run).2.1).1 = (d.commit_all run).1 ∧
    ((d.commit_all run).1.commit_all (d.commit_all run).2.1).2.1 =
      (d.commit_all run).2.1 := by
  have hst : ((commitSeriesList d.time_series
      { run with start_time := d.start_time }).2.1).start_time = d.start_time := by
    rw [commitSeriesList_start_time]
  have hrun1 : ({ (commitSeriesList d.time_series
        { run with start_time := d.start_time }).2.1 with
      start_time := d.start_time } : RunData) =
      (commitSeriesList d.time_series { run with start_time := d.start_time }).2.1 :=
    RunData_update_self _ _ hst.symm
  have hidem := commitSeriesList_idem d.time_series
    { run with start_time := d.start_time } hnd
  have houter : d.commit_all run =
      ({ d with time_series := (commitSeriesList d.time_series
          { run with start_time := d.start_time }).1 },
        (commitSeriesList d.time_series { run with start_time := d.start_time }).2.1,
        (commitSeriesList d.time_series { run with start_time := d.start_time }).2.2) := rfl
  rw [houter]
  have hinner : ∀ r2 : RunData,
      ({ d with time_series := (commitSeriesList d.time_series
          { run with start_time := d.start_time }).1 } : RunLoaderData).commit_all r2 =
      ({ d with time_series := (commitSeriesList (commitSeriesList d.time_series
          { run with start_time := d.start_time }).1
          { r2 with start_time := d.start_time }).1 },
        (commitSeriesList (commitSeriesList d.time_series
          { run with start_time := d.start_time }).1
          { r2 with start_time := d.start_time }).2.1,
        (commitSeriesList (commitSeriesList d.time_series
          { run with start_time := d.start_time }).1
          { r2 with start_time := d.start_time }).2.2) := fun r2 => rfl
  rw [hinner]
  rw [hrun1]
  exact ⟨by rw [hidem.1], by rw [hidem.2]⟩

/-- Witness for C9 at a one-series loader with staged data. -/
theorem commit_all_idempotent_witness :
    (((⟨some 1, [("a", StageTimeSeries.new { data_class := 1 })]⟩ :
        RunLoaderData).commit_all {}).1.commit_all
      ((⟨some 1, [("a", StageTimeSeries.new { data_class := 1 })]⟩ :
        RunLoaderData).commit_all {}).2.1).1 =
      ((⟨some 1, [("a", StageTimeSeries.new { data_class := 1 })]⟩ :
        RunLoaderData).commit_all {}).1 ∧
    (((⟨some 1, [("a", StageTimeSeries.new { data_class := 1 })]⟩ :
        RunLoaderData).commit_all {}).1.commit_all
      ((⟨some 1, [("a", StageTimeSeries.new { data_class := 1 })]⟩ :
        RunLoaderData).commit_all {}).2.1).2.1 =
      ((⟨some 1, [("a", StageTimeSeries.new { data_class := 1 })]⟩ :
        RunLoaderData).commit_all {}).2.1 :=
  commit_all_idempotent
    ⟨some 1, [("a", StageTimeSeries.new { data_class := 1 })]⟩ {} (by decide)

end TB
